import Mathlib

set_option autoImplicit false

namespace IpfsCohost

/-- Modelled from the spec: a Snapshot record (section 3 DATA MODEL) of the cohost
engine, which is not part of the visible source (src/bin.js is only the CLI).
An immutable record of contentId, size and creation timestamp. -/
structure Snapshot where
  contentId : String
  size : Nat
  createdAt : Nat
deriving DecidableEq, Repr

/-- Modelled from the spec: the Registry (section 3) is a mapping from domain to the
ordered sequence of snapshots, oldest first.  We represent it as an association
list so that insertion order of domains is preserved (listDomains contract). -/
abbrev Registry := List (String × List Snapshot)

/-- Modelled from the spec: the engine state, composed of the Registry and the
Store pin set (section 3, Pin Set), the latter represented as a list of content
identifiers with set semantics through membership. -/
structure EngineState where
  registry : Registry
  pinned : List String
deriving DecidableEq, Repr

/-- Modelled from the spec: Registry.get (section 4.1) returns the ordered snapshot
sequence of a domain, empty if the domain is absent. -/
def getSnaps : Registry → String → List Snapshot
  | [], _ => []
  | (e, sl) :: rest, d => if e = d then sl else getSnaps rest d

/-- Modelled from the spec: Registry.append (section 4.1) adds the newest snapshot
at the end of the domain's sequence, creating the domain entry if absent. -/
def appendSnap : Registry → String → Snapshot → Registry
  | [], d, sn => [(d, [sn])]
  | (e, sl) :: rest, d, sn =>
      if e = d then (e, sl ++ [sn]) :: rest else (e, sl) :: appendSnap rest d sn

/-- Modelled from the spec: Registry.removeDomain (section 4.1) deletes all
snapshots for a domain; a no-op if the domain is absent. -/
def removeDomain (reg : Registry) (d : String) : Registry :=
  reg.filter (fun p => !decide (p.1 = d))

/-- Modelled from the spec: pinning a content identifier in the Store (section 6,
pin).  Pin sets are sets: pinning an already pinned identifier is a no-op. -/
def pinId (p : List String) (cid : String) : List String :=
  if cid ∈ p then p else p ++ [cid]

/-- Modelled from the spec: unpinning every identifier of a given list from the
Store pin set (unpin is idempotent, section 4.3). -/
def unpinAll (p : List String) (ids : List String) : List String :=
  p.filter (fun i => !decide (i ∈ ids))

/-- The content identifiers of a snapshot sequence, in order. -/
def idsOf (sl : List Snapshot) : List String :=
  sl.map (fun sn => sn.contentId)

/-- All content identifiers appearing anywhere in the Registry (section 4.5,
the wanted set before deduplication). -/
def allIds : Registry → List String
  | [] => []
  | (_, sl) :: rest => idsOf sl ++ allIds rest

/-- Result of the engine add operation: the content identifier and cumulative
size reported back to the CLI (section 4.2). -/
structure AddResult where
  hash : String
  cumulativeSize : Nat
deriving DecidableEq, Repr

/-- Modelled from the spec: Cohost Engine add (section 4.2), for a domain whose
current publishable content imported to the pair of candidate contentId and
cumulative size.  Compares against the newest snapshot: if identical, skip pin
and append and return the existing hash and size; otherwise pin the new id,
append a new Snapshot and return the new pair.  The returned Bool records
whether a pin and an append were performed. -/
def addOp (s : EngineState) (d cid : String) (sz t : Nat) :
    EngineState × AddResult × Bool :=
  match (getSnaps s.registry d).getLast? with
  | some last =>
      if last.contentId = cid then
        (s, ⟨last.contentId, last.size⟩, false)
      else
        (⟨appendSnap s.registry d ⟨cid, sz, t⟩, pinId s.pinned cid⟩, ⟨cid, sz⟩, true)
  | none =>
      (⟨appendSnap s.registry d ⟨cid, sz, t⟩, pinId s.pinned cid⟩, ⟨cid, sz⟩, true)

/-- Engine error taxonomy, from section 7 of the spec. -/
inductive EngineError
  | importError
  | notFoundError
  | validationError
  | storeUnavailableError
deriving DecidableEq, Repr

/-- Modelled from the spec: Cohost Engine rm (section 4.3).  Fails with
NotFoundError only if the domain has no snapshots; otherwise unpins every
contentId in the domain's snapshot list and then removes the domain. -/
def rmOp (s : EngineState) (d : String) : Except EngineError EngineState :=
  match getSnaps s.registry d with
  | [] => .error .notFoundError
  | sl => .ok ⟨removeDomain s.registry d, unpinAll s.pinned (idsOf sl)⟩

-- Basic lemmas about the registry operations.

theorem getSnaps_appendSnap_self (reg : Registry) (d : String) (sn : Snapshot) :
    getSnaps (appendSnap reg d sn) d = getSnaps reg d ++ [sn] := by
  induction reg with
  | nil => simp [appendSnap, getSnaps]
  | cons p rest ih =>
      obtain ⟨e, sl⟩ := p
      by_cases h : e = d
      · simp [appendSnap, getSnaps, h]
      · simp [appendSnap, getSnaps, h, ih]

theorem getSnaps_appendSnap_other (reg : Registry) (d e : String) (sn : Snapshot)
    (h : e ≠ d) : getSnaps (appendSnap reg d sn) e = getSnaps reg e := by
  induction reg with
  | nil => simp [appendSnap, getSnaps, Ne.symm h]
  | cons p rest ih =>
      obtain ⟨f, sl⟩ := p
      by_cases hf : f = d
      · subst hf
        simp [appendSnap, getSnaps, Ne.symm h]
      · simp [appendSnap, getSnaps, hf, ih]

theorem getSnaps_removeDomain_self (reg : Registry) (d : String) :
    getSnaps (removeDomain reg d) d = [] := by
  induction reg with
  | nil => simp [removeDomain, getSnaps]
  | cons p rest ih =>
      obtain ⟨e, sl⟩ := p
      by_cases h : e = d
      · simpa [removeDomain, h] using ih
      · simpa [removeDomain, getSnaps, h] using ih

theorem getSnaps_removeDomain_other (reg : Registry) (d e : String) (h : e ≠ d) :
    getSnaps (removeDomain reg d) e = getSnaps reg e := by
  induction reg with
  | nil => simp [removeDomain, getSnaps]
  | cons p rest ih =>
      obtain ⟨f, sl⟩ := p
      by_cases hf : f = d
      · subst hf
        rw [show removeDomain ((f, sl) :: rest) f = removeDomain rest f by
          simp [removeDomain]]
        rw [ih]
        simp [getSnaps, Ne.symm h]
      · rw [show removeDomain ((f, sl) :: rest) d = (f, sl) :: removeDomain rest d by
          simp [removeDomain, hf]]
        by_cases hfe : f = e
        · simp [getSnaps, hfe]
        · simp [getSnaps, hfe, ih]

theorem mem_pinId (p : List String) (cid x : String) :
    x ∈ pinId p cid ↔ x ∈ p ∨ x = cid := by
  by_cases h : cid ∈ p
  · simp only [pinId, if_pos h]
    constructor
    · exact fun hx => Or.inl hx
    · rintro (hx | rfl)
      · exact hx
      · exact h
  · simp [pinId, if_neg h]

theorem mem_unpinAll (p ids : List String) (x : String) :
    x ∈ unpinAll p ids ↔ x ∈ p ∧ x ∉ ids := by
  simp [unpinAll]

/-- Modelled from the spec: removing from the Registry every Snapshot whose
contentId lies in a given list (used by the Sync Reconciler, section 4.5, when
content is unrecoverable). -/
def dropIds (reg : Registry) (ids : List String) : Registry :=
  reg.map (fun p => (p.1, p.2.filter (fun sn => !decide (sn.contentId ∈ ids))))

/-- Outcome of one run of the Sync Reconciler: the resulting state and the
actions the run performed (identifiers re-pinned, snapshots dropped by
contentId, orphaned identifiers unpinned). -/
structure SyncResult where
  state : EngineState
  repins : List String
  drops : List String
  orphans : List String
deriving DecidableEq, Repr

/-- Modelled from the spec: step 1 of the Sync Reconciler (section 4.5), the
wanted set: the union of all contentIds across all Registry snapshots. -/
def syncWanted (s : EngineState) : List String :=
  (allIds s.registry).dedup

/-- The wanted identifiers that the Store does not presently pin (the set
difference of step 3 of section 4.5). -/
def syncMissing (s : EngineState) : List String :=
  (syncWanted s).filter (fun i => !decide (i ∈ s.pinned))

/-- The missing identifiers whose content is still recoverable: sync re-pins
exactly these (step 3 of section 4.5). -/
def syncRepins (s : EngineState) (recoverable : String → Bool) : List String :=
  (syncMissing s).filter recoverable

/-- The missing identifiers whose content is unrecoverable: sync drops their
snapshots from the Registry (step 3 of section 4.5). -/
def syncDrops (s : EngineState) (recoverable : String → Bool) : List String :=
  (syncMissing s).filter (fun i => !recoverable i)

/-- The pinned identifiers not wanted by any Registry snapshot: sync unpins
these orphans (step 4 of section 4.5). -/
def syncOrphans (s : EngineState) : List String :=
  s.pinned.filter (fun i => !decide (i ∈ syncWanted s))

/-- Modelled from the spec: the Sync Reconciler (section 4.5), which is part of
the cohost engine absent from the visible source.  Step 1 computes the wanted
set; step 2 reads the Store pin set; step 3 re-pins every wanted id that is
not pinned, dropping from the Registry the snapshots of ids whose content is
unrecoverable (the recoverable oracle stands for the Store's ability to fetch
the content); step 4 unpins every pinned id that is not wanted, so the
resulting pin set is the pinned-or-repinned identifiers restricted to the
wanted ones. -/
def syncOp (s : EngineState) (recoverable : String → Bool) : SyncResult :=
  ⟨⟨dropIds s.registry (syncDrops s recoverable),
    (s.pinned ++ syncRepins s recoverable).filter (fun i => decide (i ∈ syncWanted s))⟩,
   syncRepins s recoverable, syncDrops s recoverable, syncOrphans s⟩

/-- Outcome of one run of the Garbage Collector: the resulting state and the
content identifiers it unpinned, oldest first per domain. -/
structure GcResult where
  state : EngineState
  unpinned : List String
deriving DecidableEq, Repr

/-- The identifiers removed by gc with retention count n: per domain, the ids of
the oldest snapshots beyond the newest n. -/
def gcRemovedIds (reg : Registry) (n : Nat) : List String :=
  match reg with
  | [] => []
  | (_, sl) :: rest => idsOf (sl.take (sl.length - n)) ++ gcRemovedIds rest n

/-- Modelled from the spec: the retention pass of the Garbage Collector
(section 4.6): for each domain, if its snapshot count exceeds n, the oldest
(count - n) snapshots are unpinned and removed, keeping the newest n in
unchanged order; domains at or under the threshold are untouched. -/
def gcRun (s : EngineState) (n : Nat) : GcResult :=
  let removed := gcRemovedIds s.registry n
  ⟨⟨s.registry.map (fun p => (p.1, p.2.drop (p.2.length - n))),
    unpinAll s.pinned removed⟩, removed⟩

/-- The retention-count argument handed to gc.  The CLI parses its token with
parseInt, which yields an integer, the value NaN for a non-numeric token, or
is skipped entirely when no token is given (src/bin.js lines 81-88). -/
inductive GCArg
  | omitted
  | nan
  | num (n : Int)
deriving DecidableEq, Repr

/-- Modelled from the spec: Cohost Engine gc (section 4.6).  Fails with
ValidationError if the retention count is negative or non-numeric; otherwise
runs the retention pass.  The spec leaves the default for an omitted count an
open question; the model uses its tentative keep-newest-1 policy, which no
claim depends on. -/
def gcOp (s : EngineState) (a : GCArg) : Except EngineError GcResult :=
  match a with
  | .nan => .error .validationError
  | .num n => if n < 0 then .error .validationError else .ok (gcRun s n.toNat)
  | .omitted => .ok (gcRun s 1)

-- The CLI layer, translated from src/bin.js.

/-- A per-domain line reported by the CLI add loop: domain, hash, size. -/
structure ReportLine where
  domain : String
  hash : String
  cumulativeSize : Nat
deriving DecidableEq, Repr

/-- The add loop of src/bin.js (lines 39-45): domains are processed in order and
a failed engine call throws, aborting the loop; the outcome oracle stands for
the awaited cohost.add call.  Returns the lines reported for the domains that
were attempted, and the error that escaped, if any. -/
def addLoop (outcome : String → Except EngineError AddResult) :
    List String → List ReportLine × Option EngineError
  | [] => ([], none)
  | d :: rest =>
      match outcome d with
      | .error e => ([], some e)
      | .ok r =>
          let (lines, err) := addLoop outcome rest
          (⟨d, r.hash, r.cumulativeSize⟩ :: lines, err)

/-- The add command of src/bin.js (lines 36-48).  Before the loop it computes
the longest domain with input.reduce over no initial value, which on an empty
input throws a TypeError before any engine call; the model returns that error
with no attempted domains.  JsError.typeError is that thrown TypeError, and
JsError.engine wraps an error escaping an engine call. -/
inductive JsError
  | typeError
  | engine (e : EngineError)
deriving DecidableEq, Repr

/-- The add command entry point (src/bin.js line 36): reduce over the empty
domain list throws TypeError; otherwise the loop runs. -/
def addCmd (outcome : String → Except EngineError AddResult) (input : List String) :
    List ReportLine × Option JsError :=
  match input with
  | [] => ([], some .typeError)
  | _ :: _ =>
      let (lines, err) := addLoop outcome input
      (lines, err.map .engine)

/-- The action the CLI dispatches to, after reading the first token
(src/bin.js lines 106-125). -/
inductive CliAction
  | showHelp
  | addA (domains : List String)
  | rmA (domains : List String)
  | lsA (domains : List String)
  | syncA
  | gcA (args : List String)
deriving DecidableEq, Repr

/-- The dispatch logic of src/bin.js run (lines 90-125): with no tokens, show
help; otherwise shift the first token off as the command and switch on it; any
unrecognized command falls through to add over input.concat(cmd), appending
the first token at the end of the domain list. -/
def runDispatch (tokens : List String) : CliAction :=
  match tokens with
  | [] => .showHelp
  | cmd :: input =>
      if cmd = "add" then .addA input
      else if cmd = "rm" then .rmA input
      else if cmd = "ls" then .lsA input
      else if cmd = "sync" then .syncA
      else if cmd = "gc" then .gcA input
      else .addA (input ++ [cmd])

instance {ε α : Type} [DecidableEq ε] [DecidableEq α] : DecidableEq (Except ε α) :=
  fun x y =>
    match x, y with
    | .error e, .error f =>
        if h : e = f then .isTrue (by rw [h])
        else .isFalse (by intro hc; injection hc with h2; exact h h2)
    | .error _, .ok _ => .isFalse (by intro hc; exact Except.noConfusion hc)
    | .ok _, .error _ => .isFalse (by intro hc; exact Except.noConfusion hc)
    | .ok a, .ok b =>
        if h : a = b then .isTrue (by rw [h])
        else .isFalse (by intro hc; injection hc with h2; exact h h2)

-- Further lemmas relating the registry helpers.

theorem mem_idsOf (sl : List Snapshot) (x : String) :
    x ∈ idsOf sl ↔ ∃ sn ∈ sl, sn.contentId = x := by
  simp [idsOf]

theorem mem_allIds (reg : Registry) (x : String) :
    x ∈ allIds reg ↔ ∃ pr ∈ reg, x ∈ idsOf pr.2 := by
  induction reg with
  | nil => simp [allIds]
  | cons p rest ih =>
      obtain ⟨e, sl⟩ := p
      simp [allIds, ih]

theorem mem_getSnaps_mem_entries (reg : Registry) (d : String) (sn : Snapshot)
    (h : sn ∈ getSnaps reg d) : ∃ pr ∈ reg, sn ∈ pr.2 := by
  induction reg with
  | nil => simp [getSnaps] at h
  | cons p rest ih =>
      obtain ⟨e, sl⟩ := p
      by_cases he : e = d
      · simp [getSnaps, he] at h
        exact ⟨(e, sl), List.mem_cons_self _ _, h⟩
      · simp only [getSnaps, if_neg he] at h
        obtain ⟨pr, hpr, hsn⟩ := ih h
        exact ⟨pr, List.mem_cons_of_mem _ hpr, hsn⟩

theorem contentId_mem_allIds (reg : Registry) (d : String) (sn : Snapshot)
    (h : sn ∈ getSnaps reg d) : sn.contentId ∈ allIds reg := by
  obtain ⟨pr, hpr, hsn⟩ := mem_getSnaps_mem_entries reg d sn h
  exact (mem_allIds reg sn.contentId).mpr ⟨pr, hpr, (mem_idsOf pr.2 sn.contentId).mpr ⟨sn, hsn, rfl⟩⟩

theorem getSnaps_dropIds (reg : Registry) (ids : List String) (d : String) :
    getSnaps (dropIds reg ids) d
      = (getSnaps reg d).filter (fun sn => !decide (sn.contentId ∈ ids)) := by
  induction reg with
  | nil => simp [dropIds, getSnaps]
  | cons p rest ih =>
      obtain ⟨e, sl⟩ := p
      by_cases he : e = d
      · simp [dropIds, getSnaps, he]
      · simp only [dropIds, List.map_cons, getSnaps, if_neg he]
        exact ih

theorem dropIds_cons (e : String) (sl : List Snapshot) (rest : Registry)
    (ids : List String) :
    dropIds ((e, sl) :: rest) ids
      = (e, sl.filter (fun sn => !decide (sn.contentId ∈ ids))) :: dropIds rest ids := rfl

theorem allIds_cons (e : String) (sl : List Snapshot) (rest : Registry) :
    allIds ((e, sl) :: rest) = idsOf sl ++ allIds rest := rfl

theorem mem_allIds_dropIds (reg : Registry) (ids : List String) (x : String) :
    x ∈ allIds (dropIds reg ids) ↔ x ∈ allIds reg ∧ x ∉ ids := by
  induction reg with
  | nil => simp [dropIds, allIds]
  | cons p rest ih =>
      obtain ⟨e, sl⟩ := p
      rw [dropIds_cons, allIds_cons, allIds_cons, List.mem_append, List.mem_append, ih]
      simp only [mem_idsOf, List.mem_filter, Bool.not_eq_eq_eq_not, Bool.not_true,
        decide_eq_false_iff_not]
      constructor
      · rintro (⟨sn, ⟨hsn, hnx⟩, rfl⟩ | ⟨hr, hnx⟩)
        · exact ⟨Or.inl ⟨sn, hsn, rfl⟩, hnx⟩
        · exact ⟨Or.inr hr, hnx⟩
      · rintro ⟨hl | hr, hnx⟩
        · obtain ⟨sn, hsn, rfl⟩ := hl
          exact Or.inl ⟨sn, ⟨hsn, hnx⟩, rfl⟩
        · exact Or.inr ⟨hr, hnx⟩

theorem dropIds_nil (reg : Registry) : dropIds reg [] = reg := by
  unfold dropIds
  have h1 : ∀ pr : String × List Snapshot,
      (pr.1, pr.2.filter (fun sn => !decide (sn.contentId ∈ ([] : List String)))) = pr := by
    intro pr
    have h2 : pr.2.filter (fun sn => !decide (sn.contentId ∈ ([] : List String))) = pr.2 :=
      List.filter_eq_self.mpr (fun sn _ => by simp)
    rw [h2]
  exact (List.map_congr_left (fun pr _ => h1 pr)).trans (List.map_id reg)

/-- Modelled from the spec: the consistency invariant of section 3: every content
identifier appearing in the Registry is pinned in the Store while the Registry
entry exists. -/
def Inv (s : EngineState) : Prop :=
  ∀ d : String, ∀ sn ∈ getSnaps s.registry d, sn.contentId ∈ s.pinned

theorem Inv_of_entries (s : EngineState)
    (h : ∀ pr ∈ s.registry, ∀ sn ∈ pr.2, sn.contentId ∈ s.pinned) : Inv s := by
  intro d sn hsn
  obtain ⟨pr, hpr, hsnp⟩ := mem_getSnaps_mem_entries s.registry d sn hsn
  exact h pr hpr sn hsnp

theorem addOp_fresh (s : EngineState) (d cid : String) (sz t : Nat)
    (h : ∀ last, (getSnaps s.registry d).getLast? = some last → last.contentId ≠ cid) :
    addOp s d cid sz t
      = (⟨appendSnap s.registry d ⟨cid, sz, t⟩, pinId s.pinned cid⟩, ⟨cid, sz⟩, true) := by
  cases hl : (getSnaps s.registry d).getLast? with
  | none => simp [addOp, hl]
  | some last => simp [addOp, hl, h last hl]

/-- Claim C1: for a domain whose published content is unchanged between two
consecutive calls (the Store imports the same contentId and cumulative size
both times) and whose registered newest snapshot does not already carry that
contentId, calling add twice in a row creates exactly one Snapshot: the first
call pins and appends (flag true) and grows the domain's snapshot list by one,
the second call performs no pin and no append (flag false, state unchanged),
and both calls return the identical hash and cumulativeSize pair. -/
theorem add_twice_creates_one_snapshot (s : EngineState) (d cid : String)
    (sz t1 t2 : Nat)
    (h : ∀ last, (getSnaps s.registry d).getLast? = some last → last.contentId ≠ cid) :
    (addOp s d cid sz t1).2.2 = true ∧
    addOp (addOp s d cid sz t1).1 d cid sz t2
      = ((addOp s d cid sz t1).1, (addOp s d cid sz t1).2.1, false) ∧
    (getSnaps (addOp s d cid sz t1).1.registry d).length
      = (getSnaps s.registry d).length + 1 := by
  rw [addOp_fresh s d cid sz t1 h]
  have hsnaps : getSnaps (appendSnap s.registry d ⟨cid, sz, t1⟩) d
      = getSnaps s.registry d ++ [⟨cid, sz, t1⟩] := getSnaps_appendSnap_self _ _ _
  refine ⟨rfl, ?_, ?_⟩
  · simp [addOp, hsnaps, List.getLast?_concat]
  · simp [hsnaps]

/-- Witness for Claim C1 at a concrete fresh domain. -/
theorem add_twice_creates_one_snapshot_witness :
    (addOp ⟨[], []⟩ "docs.ipfs.io" "QmX" 7 0).2.2 = true ∧
    addOp (addOp ⟨[], []⟩ "docs.ipfs.io" "QmX" 7 0).1 "docs.ipfs.io" "QmX" 7 1
      = ((addOp ⟨[], []⟩ "docs.ipfs.io" "QmX" 7 0).1,
         (addOp ⟨[], []⟩ "docs.ipfs.io" "QmX" 7 0).2.1, false) ∧
    (getSnaps (addOp ⟨[], []⟩ "docs.ipfs.io" "QmX" 7 0).1.registry "docs.ipfs.io").length
      = (getSnaps ([] : Registry) "docs.ipfs.io").length + 1 :=
  add_twice_creates_one_snapshot ⟨[], []⟩ "docs.ipfs.io" "QmX" 7 0 1
    (by intro last hl; simp [getSnaps] at hl)

/-- Claim C8: gc fails with ValidationError whenever the retention count is
negative or non-numeric (the NaN produced by parseInt on a non-numeric CLI
token), rather than proceeding with the invalid count. -/
theorem gc_validation_error (s : EngineState) (n : Int) :
    gcOp s .nan = Except.error .validationError ∧
    (n < 0 → gcOp s (.num n) = Except.error .validationError) := by
  refine ⟨rfl, fun h => ?_⟩
  simp [gcOp, h]

/-- Witness for Claim C8 at the concrete count minus one. -/
theorem gc_validation_error_witness :
    gcOp ⟨[], []⟩ .nan = Except.error .validationError ∧
    ((-1 : Int) < 0 → gcOp ⟨[], []⟩ (.num (-1)) = Except.error .validationError) :=
  gc_validation_error ⟨[], []⟩ (-1)

/-- Claim C9: an unrecognized first command-line token falls through to the add
command over all the tokens, the first token being appended at the end of the
domain list; in particular the invocation with tokens a.com b.com adds in the
order b.com then a.com. -/
theorem default_dispatch_appends_first_token (cmd : String) (input : List String)
    (h1 : cmd ≠ "add") (h2 : cmd ≠ "rm") (h3 : cmd ≠ "ls") (h4 : cmd ≠ "sync")
    (h5 : cmd ≠ "gc") :
    runDispatch (cmd :: input) = .addA (input ++ [cmd]) ∧
    runDispatch ["a.com", "b.com"] = .addA ["b.com", "a.com"] := by
  refine ⟨by simp [runDispatch, h1, h2, h3, h4, h5], by decide⟩

/-- Witness for Claim C9 at the concrete tokens a.com b.com. -/
theorem default_dispatch_appends_first_token_witness :
    runDispatch ("a.com" :: ["b.com"]) = .addA (["b.com"] ++ ["a.com"]) ∧
    runDispatch ["a.com", "b.com"] = .addA ["b.com", "a.com"] :=
  default_dispatch_appends_first_token "a.com" ["b.com"]
    (by decide) (by decide) (by decide) (by decide) (by decide)

/-- Claim C10: the add command invoked with an empty domain list fails with a
TypeError before any engine call (the reduce over an empty array with no
initial value), and the branch is reachable at the public interface: the
single token add dispatches to the add command with no domains. -/
theorem empty_add_throws_type_error (outcome : String → Except EngineError AddResult) :
    addCmd outcome [] = ([], some .typeError) ∧ runDispatch ["add"] = .addA [] :=
  ⟨rfl, by decide⟩

theorem getSnaps_gcMap (reg : Registry) (d : String) (n : Nat) :
    getSnaps (reg.map (fun p => (p.1, p.2.drop (p.2.length - n)))) d
      = (getSnaps reg d).drop ((getSnaps reg d).length - n) := by
  induction reg with
  | nil => simp [getSnaps]
  | cons p rest ih =>
      obtain ⟨e, sl⟩ := p
      by_cases he : e = d
      · simp [getSnaps, he]
      · simp only [List.map_cons, getSnaps, if_neg he]
        exact ih

/-- A demonstration state holding one domain with five snapshots, all pinned,
used for the concrete gc boundary instance of the spec. -/
def gcDemoState : EngineState :=
  ⟨[("d.com", [⟨"c1", 1, 1⟩, ⟨"c2", 1, 2⟩, ⟨"c3", 1, 3⟩, ⟨"c4", 1, 4⟩, ⟨"c5", 1, 5⟩])],
   ["c1", "c2", "c3", "c4", "c5"]⟩

/-- Claim C3: gc with a non-negative retention count n keeps, for every domain,
exactly the newest n snapshots in unchanged order (each domain list becomes
its drop of the oldest count minus n); a domain at or under the threshold is
untouched; a domain with at least n snapshots retains exactly n; the unpinned
identifiers are exactly those of the removed oldest snapshots, and the pin set
loses exactly them.  In particular, on a domain with 5 snapshots, gc 2 unpins
and removes exactly the oldest 3 and the domain afterward has exactly the
newest 2 in order. -/
theorem gc_keeps_newest_n (s : EngineState) (n : Nat) :
    gcOp s (.num (n : Int)) = .ok (gcRun s n) ∧
    (∀ d, getSnaps (gcRun s n).state.registry d
        = (getSnaps s.registry d).drop ((getSnaps s.registry d).length - n)) ∧
    (∀ d, (getSnaps s.registry d).length ≤ n →
        getSnaps (gcRun s n).state.registry d = getSnaps s.registry d) ∧
    (∀ d, n ≤ (getSnaps s.registry d).length →
        (getSnaps (gcRun s n).state.registry d).length = n) ∧
    (gcRun s n).unpinned = gcRemovedIds s.registry n ∧
    (∀ x, x ∈ (gcRun s n).state.pinned ↔ x ∈ s.pinned ∧ x ∉ gcRemovedIds s.registry n) ∧
    gcOp gcDemoState (.num 2)
      = .ok ⟨⟨[("d.com", [⟨"c4", 1, 4⟩, ⟨"c5", 1, 5⟩])], ["c4", "c5"]⟩,
             ["c1", "c2", "c3"]⟩ := by
  have hmap : ∀ d, getSnaps (gcRun s n).state.registry d
      = (getSnaps s.registry d).drop ((getSnaps s.registry d).length - n) := by
    intro d
    exact getSnaps_gcMap s.registry d n
  refine ⟨?_, hmap, ?_, ?_, rfl, ?_, ?_⟩
  · simp [gcOp, Int.not_lt.mpr (Int.natCast_nonneg n)]
  · intro d hle
    rw [hmap d, Nat.sub_eq_zero_of_le hle, List.drop_zero]
  · intro d hge
    rw [hmap d, List.length_drop, Nat.sub_sub_self hge]
  · intro x
    exact mem_unpinAll s.pinned (gcRemovedIds s.registry n) x
  · decide

/-- Witness for Claim C3 at the concrete 5-snapshot domain with retention 2. -/
theorem gc_keeps_newest_n_witness :
    (getSnaps (gcRun gcDemoState 2).state.registry "d.com").length = 2 :=
  (gc_keeps_newest_n gcDemoState 2).2.2.2.1 "d.com" (by decide)

theorem rmOp_spec (s : EngineState) (d : String) (h : getSnaps s.registry d ≠ []) :
    rmOp s d
      = .ok ⟨removeDomain s.registry d, unpinAll s.pinned (idsOf (getSnaps s.registry d))⟩ := by
  unfold rmOp
  split
  · next heq => exact absurd heq h
  · rfl

/-- Claim C4: adding a domain and then removing it leaves its snapshot sequence
empty and removes from the pin set every contentId that the domain's snapshot
list held just before rm. -/
theorem add_then_rm_roundtrip (s : EngineState) (d cid : String) (sz t : Nat) :
    ∃ s2, rmOp (addOp s d cid sz t).1 d = .ok s2 ∧
      getSnaps s2.registry d = [] ∧
      ∀ x ∈ idsOf (getSnaps (addOp s d cid sz t).1.registry d), x ∉ s2.pinned := by
  have hne : getSnaps (addOp s d cid sz t).1.registry d ≠ [] := by
    cases hl : (getSnaps s.registry d).getLast? with
    | none =>
        rw [addOp_fresh s d cid sz t (by intro last h2; rw [hl] at h2; cases h2)]
        simp [getSnaps_appendSnap_self]
    | some last =>
        by_cases hc : last.contentId = cid
        · have hskip : addOp s d cid sz t = (s, ⟨last.contentId, last.size⟩, false) := by
            simp [addOp, hl, hc]
          rw [hskip]
          intro hnil
          rw [hnil] at hl
          simp at hl
        · rw [addOp_fresh s d cid sz t
            (by intro l hl2; rw [hl] at hl2; injection hl2 with h2; rw [← h2]; exact hc)]
          simp [getSnaps_appendSnap_self]
  refine ⟨_, rmOp_spec (addOp s d cid sz t).1 d hne,
    getSnaps_removeDomain_self _ _, ?_⟩
  intro x hx hmem
  rw [mem_unpinAll] at hmem
  exact hmem.2 hx

theorem Inv_append_pin (s : EngineState) (d cid : String) (sz t : Nat) (hinv : Inv s) :
    Inv ⟨appendSnap s.registry d ⟨cid, sz, t⟩, pinId s.pinned cid⟩ := by
  intro e sn hsn
  show sn.contentId ∈ pinId s.pinned cid
  rw [mem_pinId]
  by_cases he : e = d
  · subst he
    rw [getSnaps_appendSnap_self] at hsn
    rcases List.mem_append.mp hsn with hold | hnew
    · exact Or.inl (hinv e sn hold)
    · rw [List.mem_singleton] at hnew
      subst hnew
      exact Or.inr rfl
  · rw [getSnaps_appendSnap_other _ _ _ _ he] at hsn
    exact Or.inl (hinv e sn hsn)

/-- Claim C2 counterexample: starting from the empty state, adding two distinct
domains whose published content is identical (so both snapshots carry the same
contentId) and then successfully removing the first domain leaves the second
domain's snapshot with a contentId that is no longer pinned: rm unpins every
contentId of the removed domain even when another domain still references it,
so the invariant fails immediately after a successful rm. -/
theorem inv_after_rm_counterexample :
    rmOp (addOp (addOp ⟨[], []⟩ "a.com" "x" 1 0).1 "b.com" "x" 1 1).1 "a.com"
      = .ok ⟨[("b.com", [⟨"x", 1, 1⟩])], []⟩ ∧
    ∃ sn ∈ getSnaps ([("b.com", [⟨"x", 1, 1⟩])] : Registry) "b.com",
      sn.contentId ∉ ([] : List String) := by
  decide

/-- Claim C2 as amended: immediately after a successful engine operation, every
contentId in the Registry is pinned, under the preconditions the
counterexample forces: add preserves the invariant when it held beforehand;
rm preserves it when it held beforehand and no contentId of the removed
domain's snapshots appears in another domain's snapshot list; sync
establishes it unconditionally. -/
theorem inv_after_operations :
    (∀ (s : EngineState) (d cid : String) (sz t : Nat),
      Inv s → Inv (addOp s d cid sz t).1) ∧
    (∀ (s : EngineState) (d : String) (s2 : EngineState),
      Inv s → rmOp s d = .ok s2 →
      (∀ e, e ≠ d → ∀ sn ∈ getSnaps s.registry e,
        sn.contentId ∉ idsOf (getSnaps s.registry d)) →
      Inv s2) ∧
    (∀ (s : EngineState) (recov : String → Bool), Inv (syncOp s recov).state) := by
  refine ⟨?_, ?_, ?_⟩
  · intro s d cid sz t hinv
    cases hl : (getSnaps s.registry d).getLast? with
    | none =>
        rw [addOp_fresh s d cid sz t (by intro last h2; rw [hl] at h2; cases h2)]
        exact Inv_append_pin s d cid sz t hinv
    | some last =>
        by_cases hc : last.contentId = cid
        · have hskip : addOp s d cid sz t = (s, ⟨last.contentId, last.size⟩, false) := by
            simp [addOp, hl, hc]
          rw [hskip]
          exact hinv
        · rw [addOp_fresh s d cid sz t
            (by intro l hl2; rw [hl] at hl2; injection hl2 with h2; rw [← h2]; exact hc)]
          exact Inv_append_pin s d cid sz t hinv
  · intro s d s2 hinv hok hdisj
    cases hsl : getSnaps s.registry d with
    | nil =>
        have herr : rmOp s d = .error .notFoundError := by
          unfold rmOp
          rw [hsl]
        rw [herr] at hok
        exact Except.noConfusion hok
    | cons a l =>
        have hne : getSnaps s.registry d ≠ [] := by rw [hsl]; simp
        rw [rmOp_spec s d hne] at hok
        injection hok with h2
        subst h2
        intro e sn hsn
        by_cases he : e = d
        · subst he
          rw [show (⟨removeDomain s.registry e, unpinAll s.pinned
              (idsOf (getSnaps s.registry e))⟩ : EngineState).registry
              = removeDomain s.registry e from rfl,
            getSnaps_removeDomain_self] at hsn
          simp at hsn
        · rw [show (⟨removeDomain s.registry d, unpinAll s.pinned
              (idsOf (getSnaps s.registry d))⟩ : EngineState).registry
              = removeDomain s.registry d from rfl,
            getSnaps_removeDomain_other _ _ _ he] at hsn
          show sn.contentId ∈ unpinAll s.pinned (idsOf (getSnaps s.registry d))
          rw [mem_unpinAll]
          exact ⟨hinv e sn hsn, hdisj e he sn hsn⟩
  · intro s recov e sn hsn
    rw [show (syncOp s recov).state.registry
        = dropIds s.registry (syncDrops s recov) from rfl, getSnaps_dropIds] at hsn
    obtain ⟨hmem, hbool⟩ := List.mem_filter.mp hsn
    have hnotdrop : sn.contentId ∉ syncDrops s recov := by simpa using hbool
    have hwant : sn.contentId ∈ syncWanted s :=
      List.mem_dedup.mpr (contentId_mem_allIds s.registry e sn hmem)
    show sn.contentId ∈ (s.pinned ++ syncRepins s recov).filter
      (fun i => decide (i ∈ syncWanted s))
    rw [List.mem_filter, List.mem_append]
    refine ⟨?_, by simpa using hwant⟩
    by_cases hp : sn.contentId ∈ s.pinned
    · exact Or.inl hp
    · right
      have hmiss : sn.contentId ∈ syncMissing s := by
        rw [syncMissing, List.mem_filter]
        exact ⟨hwant, by simpa using hp⟩
      cases hr : recov sn.contentId with
      | false =>
          exact absurd (by
            rw [syncDrops, List.mem_filter]
            exact ⟨hmiss, by rw [hr]; rfl⟩) hnotdrop
      | true =>
          rw [syncRepins, List.mem_filter]
          exact ⟨hmiss, hr⟩

/-- Witness for the amended Claim C2, at a concrete one-domain state removed
by rm with the preconditions discharged. -/
theorem inv_after_operations_witness :
    Inv (⟨[], []⟩ : EngineState) :=
  inv_after_operations.2.1 ⟨[("a.com", [⟨"x", 1, 0⟩])], ["x"]⟩ "a.com" ⟨[], []⟩
    (Inv_of_entries _ (by decide))
    (by decide)
    (by
      intro e he sn hsn
      simp only [getSnaps] at hsn
      rw [if_neg (fun h2 => he h2.symm)] at hsn
      simp at hsn)

/-- Claim C5: for a Registry-tracked contentId that is not pinned (unpinned
out-of-band), sync has exactly one of two outcomes: the id is pinned again and
the snapshots carrying it are unchanged in every domain, or the id no longer
appears anywhere in the Registry (its snapshots were removed as
unrecoverable); the disjunction leaves no third outcome. -/
theorem sync_repair_dichotomy (s : EngineState) (recov : String → Bool) (i : String)
    (hw : i ∈ allIds s.registry) (hp : i ∉ s.pinned) :
    (i ∈ (syncOp s recov).state.pinned ∧
      ∀ d, (getSnaps (syncOp s recov).state.registry d).filter
          (fun sn => decide (sn.contentId = i))
        = (getSnaps s.registry d).filter (fun sn => decide (sn.contentId = i))) ∨
    i ∉ allIds (syncOp s recov).state.registry := by
  have hwant : i ∈ syncWanted s := List.mem_dedup.mpr hw
  have hmiss : i ∈ syncMissing s := by
    rw [syncMissing, List.mem_filter]
    exact ⟨hwant, by simpa using hp⟩
  cases hr : recov i with
  | true =>
      left
      have hnotdrop : i ∉ syncDrops s recov := by
        rw [syncDrops, List.mem_filter]
        rintro ⟨_, hnr⟩
        rw [hr] at hnr
        simp at hnr
      constructor
      · show i ∈ (s.pinned ++ syncRepins s recov).filter
          (fun j => decide (j ∈ syncWanted s))
        rw [List.mem_filter, List.mem_append]
        refine ⟨Or.inr ?_, by simpa using hwant⟩
        rw [syncRepins, List.mem_filter]
        exact ⟨hmiss, hr⟩
      · intro d
        rw [show (syncOp s recov).state.registry
            = dropIds s.registry (syncDrops s recov) from rfl, getSnaps_dropIds,
          List.filter_filter]
        apply List.filter_congr
        intro sn _
        by_cases hci : sn.contentId = i
        · rw [hci]
          simp [hnotdrop]
        · simp [hci]
  | false =>
      right
      rw [show (syncOp s recov).state.registry
          = dropIds s.registry (syncDrops s recov) from rfl, mem_allIds_dropIds]
      rintro ⟨_, hnd⟩
      apply hnd
      rw [syncDrops, List.mem_filter]
      exact ⟨hmiss, by rw [hr]; rfl⟩

/-- Witness for Claim C5 at a concrete state with one tracked, unpinned,
recoverable contentId. -/
theorem sync_repair_dichotomy_witness :
    ("x" ∈ (syncOp ⟨[("a.com", [⟨"x", 1, 0⟩])], []⟩ (fun _ => true)).state.pinned ∧
      ∀ d, (getSnaps (syncOp ⟨[("a.com", [⟨"x", 1, 0⟩])], []⟩
            (fun _ => true)).state.registry d).filter
          (fun sn => decide (sn.contentId = "x"))
        = (getSnaps ([("a.com", [⟨"x", 1, 0⟩])] : Registry) d).filter
          (fun sn => decide (sn.contentId = "x"))) ∨
    "x" ∉ allIds (syncOp ⟨[("a.com", [⟨"x", 1, 0⟩])], []⟩ (fun _ => true)).state.registry :=
  sync_repair_dichotomy ⟨[("a.com", [⟨"x", 1, 0⟩])], []⟩ (fun _ => true) "x"
    (by decide) (by decide)

/-- Claim C6: sync is idempotent: immediately after one sync run, a second run
re-pins nothing, drops nothing, unpins nothing, and leaves the state exactly
as the first run left it. -/
theorem sync_idempotent (s : EngineState) (recov : String → Bool) :
    syncOp (syncOp s recov).state recov = ⟨(syncOp s recov).state, [], [], []⟩ := by
  have hreg : (syncOp s recov).state.registry
      = dropIds s.registry (syncDrops s recov) := rfl
  have hpin : (syncOp s recov).state.pinned
      = (s.pinned ++ syncRepins s recov).filter (fun i => decide (i ∈ syncWanted s)) := rfl
  have hA : ∀ i, i ∈ allIds (syncOp s recov).state.registry →
      i ∈ (syncOp s recov).state.pinned := by
    intro i hi
    rw [hreg, mem_allIds_dropIds] at hi
    obtain ⟨hia, hnd⟩ := hi
    have hwant : i ∈ syncWanted s := List.mem_dedup.mpr hia
    rw [hpin, List.mem_filter, List.mem_append]
    refine ⟨?_, by simpa using hwant⟩
    by_cases hp : i ∈ s.pinned
    · exact Or.inl hp
    · right
      have hmiss : i ∈ syncMissing s := by
        rw [syncMissing, List.mem_filter]
        exact ⟨hwant, by simpa using hp⟩
      cases hr : recov i with
      | false =>
          exact absurd (by
            rw [syncDrops, List.mem_filter]
            exact ⟨hmiss, by rw [hr]; rfl⟩) hnd
      | true =>
          rw [syncRepins, List.mem_filter]
          exact ⟨hmiss, hr⟩
  have hB : ∀ i, i ∈ (syncOp s recov).state.pinned →
      i ∈ allIds (syncOp s recov).state.registry := by
    intro i hi
    rw [hpin, List.mem_filter] at hi
    obtain ⟨hi2, hw⟩ := hi
    have hwant : i ∈ syncWanted s := by simpa using hw
    have hia : i ∈ allIds s.registry := List.mem_dedup.mp hwant
    rw [hreg, mem_allIds_dropIds]
    refine ⟨hia, ?_⟩
    rw [List.mem_append] at hi2
    rcases hi2 with hp | hrep
    · rw [syncDrops, List.mem_filter]
      rintro ⟨hmiss, _⟩
      rw [syncMissing, List.mem_filter] at hmiss
      obtain ⟨_, hnp⟩ := hmiss
      simp at hnp
      exact hnp hp
    · rw [syncRepins, List.mem_filter] at hrep
      rw [syncDrops, List.mem_filter]
      rintro ⟨_, hnr⟩
      rw [hrep.2] at hnr
      simp at hnr
  have hmiss2 : syncMissing (syncOp s recov).state = [] := by
    rw [syncMissing]
    apply List.filter_eq_nil_iff.mpr
    intro i hi
    have hip : i ∈ (syncOp s recov).state.pinned := by
      apply hA
      rw [← List.mem_dedup]
      exact hi
    simp [hip]
  have hreps2 : syncRepins (syncOp s recov).state recov = [] := by
    rw [syncRepins, hmiss2]
    rfl
  have hdrops2 : syncDrops (syncOp s recov).state recov = [] := by
    rw [syncDrops, hmiss2]
    rfl
  have horph2 : syncOrphans (syncOp s recov).state = [] := by
    rw [syncOrphans]
    apply List.filter_eq_nil_iff.mpr
    intro i hi
    have hiw : i ∈ syncWanted (syncOp s recov).state := by
      rw [syncWanted, List.mem_dedup]
      exact hB i hi
    simp [hiw]
  have hfilt : ((syncOp s recov).state.pinned).filter
      (fun i => decide (i ∈ syncWanted (syncOp s recov).state))
      = (syncOp s recov).state.pinned := by
    apply List.filter_eq_self.mpr
    intro i hi
    simp only [decide_eq_true_eq]
    rw [syncWanted, List.mem_dedup]
    exact hB i hi
  have hstep : syncOp (syncOp s recov).state recov
      = ⟨⟨dropIds (syncOp s recov).state.registry (syncDrops (syncOp s recov).state recov),
          ((syncOp s recov).state.pinned ++ syncRepins (syncOp s recov).state recov).filter
            (fun i => decide (i ∈ syncWanted (syncOp s recov).state))⟩,
         syncRepins (syncOp s recov).state recov,
         syncDrops (syncOp s recov).state recov,
         syncOrphans (syncOp s recov).state⟩ := rfl
  rw [hstep, hreps2, hdrops2, horph2, dropIds_nil, List.append_nil, hfilt]

/-- The rm loop of src/bin.js (lines 50-57): domains are processed in order,
each successful engine rm is reported with a per-domain success message, and
a failed call throws, aborting the loop (the thrown error is caught only at
the top of run, which exits); the outcome oracle stands for the awaited
cohost.rm call.  Returns the domains reported as no longer cohosted, and the
error that escaped, if any. -/
def rmLoop (outcome : String → Except EngineError Unit) :
    List String → List String × Option EngineError
  | [] => ([], none)
  | d :: rest =>
      match outcome d with
      | .error e => ([], some e)
      | .ok _ =>
          let (done, err) := rmLoop outcome rest
          (d :: done, err)

/-- An engine-outcome oracle for the batch claims: the domain b.com fails with
an ImportError, every other domain succeeds. -/
def failingOutcome : String → Except EngineError AddResult :=
  fun d => if d = "b.com" then .error .importError else .ok ⟨"QmA", 1⟩

/-- An rm-outcome oracle for the batch claims: the domain b.com fails with a
NotFoundError, every other domain succeeds. -/
def failingRmOutcome : String → Except EngineError Unit :=
  fun d => if d = "b.com" then .error .notFoundError else .ok ()

/-- Claim C7 counterexample: in add and rm batches over a.com, b.com, c.com
where only b.com fails, the CLI add loop (src/bin.js lines 39-45) and rm loop
(lines 52-56), whose thrown errors are caught only at the top of run, report
a.com, abort on b.com's error, and never attempt c.com even though c.com's
own operation would succeed — so a per-domain failure does abort the
processing of sibling domains in both batch forms. -/
theorem batch_abort_counterexample :
    addCmd failingOutcome ["a.com", "b.com", "c.com"]
      = ([⟨"a.com", "QmA", 1⟩], some (.engine .importError)) ∧
    failingOutcome "c.com" = .ok ⟨"QmA", 1⟩ ∧
    "c.com" ∉ (addCmd failingOutcome ["a.com", "b.com", "c.com"]).1.map
        (fun r => r.domain) ∧
    rmLoop failingRmOutcome ["a.com", "b.com", "c.com"]
      = (["a.com"], some .notFoundError) ∧
    failingRmOutcome "c.com" = .ok () ∧
    "c.com" ∉ (rmLoop failingRmOutcome ["a.com", "b.com", "c.com"]).1 := by
  decide

/-- Claim C7 as amended: a per-domain failure during a multi-domain add or rm
batch aborts the remaining siblings: the domains before the first failing one
are attempted and reported individually, the failing domain's error escapes
the loop and fails the whole invocation, and the domains after it are not
attempted. -/
theorem batch_abort_on_first_failure :
    (∀ (outcome : String → Except EngineError AddResult) (pre rest : List String)
      (d : String) (e : EngineError),
      (∀ p ∈ pre, ∃ r, outcome p = .ok r) → outcome d = .error e →
      ∃ lines, addLoop outcome (pre ++ d :: rest) = (lines, some e) ∧
        lines.map (fun r => r.domain) = pre) ∧
    (∀ (outcome : String → Except EngineError Unit) (pre rest : List String)
      (d : String) (e : EngineError),
      (∀ p ∈ pre, outcome p = .ok ()) → outcome d = .error e →
      rmLoop outcome (pre ++ d :: rest) = (pre, some e)) := by
  constructor
  · intro outcome pre rest d e hpre hd
    induction pre with
    | nil =>
        refine ⟨[], ?_, rfl⟩
        simp [addLoop, hd]
    | cons p ps ih =>
        obtain ⟨r, hr⟩ := hpre p (List.mem_cons_self p ps)
        obtain ⟨lines, hrun, hmap⟩ := ih (fun q hq => hpre q (List.mem_cons_of_mem p hq))
        refine ⟨⟨p, r.hash, r.cumulativeSize⟩ :: lines, ?_, by simp [hmap]⟩
        simp [addLoop, hr, hrun]
  · intro outcome pre rest d e hpre hd
    induction pre with
    | nil => simp [rmLoop, hd]
    | cons p ps ih =>
        have hp := hpre p (List.mem_cons_self p ps)
        have hrun := ih (fun q hq => hpre q (List.mem_cons_of_mem p hq))
        simp [rmLoop, hp, hrun]

/-- Witness for the amended Claim C7 at concrete three-domain add and rm
batches whose middle domain fails. -/
theorem batch_abort_on_first_failure_witness :
    (∃ lines, addLoop failingOutcome (["a.com"] ++ "b.com" :: ["c.com"])
      = (lines, some .importError) ∧
      lines.map (fun r => r.domain) = ["a.com"]) ∧
    rmLoop failingRmOutcome (["a.com"] ++ "b.com" :: ["c.com"])
      = (["a.com"], some .notFoundError) :=
  ⟨batch_abort_on_first_failure.1 failingOutcome ["a.com"] ["c.com"] "b.com" .importError
    (by
      intro p hp
      rw [List.mem_singleton] at hp
      subst hp
      exact ⟨⟨"QmA", 1⟩, by decide⟩)
    (by decide),
   batch_abort_on_first_failure.2 failingRmOutcome ["a.com"] ["c.com"] "b.com" .notFoundError
    (by
      intro p hp
      rw [List.mem_singleton] at hp
      subst hp
      decide)
    (by decide)⟩

end IpfsCohost
